import Mathlib

/-!
Verification of the DPWH flood-control data-analysis pipeline
(Rust sources: src/model.rs, src/controller.rs, src/view/report1.rs,
src/view/report2.rs).

Shallow embedding conventions:
* `f64` values that stay finite along the verified paths are modelled as
  exact rationals (`ℚ`); the reliability formula of report2, whose point is
  precisely its IEEE division-by-zero behaviour, is modelled by the small
  IEEE-style domain `F` (finite / NaN / plus-minus infinity) below.
* `chrono::NaiveDate` is modelled by `NDate`: a year together with an
  absolute day number, so that `(e - s).num_days()` is `e.dayNumber - s.dayNumber`.
* Raw CSV text for the budget / cost columns is modelled by `RawNum`, the
  classification that `parse_float` and the two reference regexes induce on
  the text: a numeric literal, a cluster reference capturing an id, a MYCA
  reference capturing an id, or anything else.
* Rust `HashMap<String, f64>` lookup tables are modelled as functions
  `String → Option ℚ` with insert-overwrite update.
* `Vec::sort_by` is modelled by `List.insertionSort` (the sortedness and
  permutation contract of the library sort is all the code relies on).
-/

/-- Rust `f64::round` on the exact value: round half away from zero,
as an integer: `⌊q + 1/2⌋` for `0 ≤ q` and `-⌊-q + 1/2⌋` for `q < 0`. -/
def rustRound (q : ℚ) : ℤ :=
  if q < 0 then -⌊-q + 1/2⌋ else ⌊q + 1/2⌋

/-- `round2` from src/model.rs lines 135-141: `(v * 100.0).round() / 100.0`. -/
def round2 (v : ℚ) : ℚ :=
  (rustRound (v * 100) : ℚ) / 100

/-- `f64::EPSILON` (= 2^-52), used as the degenerate-range guard in the
normalization step of report1. -/
def f64Epsilon : ℚ := 1 / 2 ^ 52

/-- Model of `chrono::NaiveDate`: the year, plus an absolute day number so
that date subtraction in whole days is subtraction of day numbers. -/
structure NDate where
  year : ℤ
  dayNumber : ℤ
deriving DecidableEq, Repr

/-- `Project` from src/model.rs lines 9-29. All fields optional, exactly as
in the source. -/
structure Project where
  project_id : Option String := none
  funding_year : Option ℤ := none
  region : Option String := none
  main_island : Option String := none
  province : Option String := none
  contractor : Option String := none
  type_of_work : Option String := none
  approved_budget_for_contract : Option ℚ := none
  contract_cost : Option ℚ := none
  start_date : Option NDate := none
  actual_completion_date : Option NDate := none
  lat : Option ℚ := none
  lon : Option ℚ := none
  cost_savings : Option ℚ := none
  completion_delay_days : Option ℤ := none
  contract_id : Option String := none
deriving DecidableEq, Repr

/-- The raw text of a budget or cost cell, as classified by `parse_float`
(src/model.rs lines 61-69) and the two reference regexes of
src/controller.rs lines 15-16: a numeric literal, the pattern
"Clustered with Contract ID <id>" capturing the id, the pattern
"MYCA with Project ID <id>" capturing the id, or any other text
(empty included). -/
inductive RawNum where
  | num (q : ℚ)
  | clusterRef (id : String)
  | mycaRef (id : String)
  | other
deriving DecidableEq, Repr

/-- `parse_float` on a budget / cost cell: succeeds exactly on numeric
literals (src/model.rs lines 61-69). -/
def parse_float : RawNum → Option ℚ
  | RawNum.num q => some q
  | _ => none

/-- The capture of the cluster regex, when the cell matches it. -/
def clusterCapture : RawNum → Option String
  | RawNum.clusterRef id => some id
  | _ => none

/-- The capture of the MYCA regex, when the cell matches it. -/
def mycaCapture : RawNum → Option String
  | RawNum.mycaRef id => some id
  | _ => none

/-- One raw CSV record as the loader reads it. String cells are `Option`:
`none` when the column is missing or the trimmed cell is empty; the closure
`get` of src/controller.rs lines 41-43 turns that into the empty string.
Cells whose parse result is all the loader uses (FundingYear, dates,
latitude, longitude) are carried as their parse result. -/
structure RawRow where
  contract_id_raw : Option String := none
  project_id_raw : Option String := none
  funding_year_raw : Option ℤ := none
  region_raw : Option String := none
  main_island_raw : Option String := none
  province_raw : Option String := none
  contractor_raw : Option String := none
  type_of_work_raw : Option String := none
  budget_raw : RawNum := RawNum.other
  cost_raw : RawNum := RawNum.other
  lat_raw : Option ℚ := none
  lon_raw : Option ℚ := none
  start_date_raw : Option NDate := none
  completion_date_raw : Option NDate := none
deriving DecidableEq, Repr

/-- The `get` closure of src/controller.rs lines 41-43 and 69-71: a missing
cell reads as the empty string. -/
def rawGet (cell : Option String) : String := cell.getD ""

/-- The four pass-1 lookup tables of src/controller.rs lines 31-34. -/
structure Tables where
  contract_budget : String → Option ℚ
  contract_cost : String → Option ℚ
  project_budget : String → Option ℚ
  project_cost : String → Option ℚ

/-- The empty lookup tables. -/
def Tables.empty : Tables :=
  ⟨fun _ => none, fun _ => none, fun _ => none, fun _ => none⟩

/-- `HashMap::insert` on a table modelled as a function. -/
def tblInsert (t : String → Option ℚ) (k : String) (v : ℚ) : String → Option ℚ :=
  fun x => if x = k then some v else t x

/-- Pass 1 on one record (src/controller.rs lines 45-64): if the contract
id cell is non-empty, store its numerically-parsing budget and cost under
it; same for the project id cell. -/
def pass1Row (t : Tables) (r : RawRow) : Tables :=
  let cid := rawGet r.contract_id_raw
  let pid := rawGet r.project_id_raw
  let t1 :=
    if cid ≠ "" then
      let tb := match parse_float r.budget_raw with
        | some b => tblInsert t.contract_budget cid b
        | none => t.contract_budget
      let tc := match parse_float r.cost_raw with
        | some c => tblInsert t.contract_cost cid c
        | none => t.contract_cost
      { t with contract_budget := tb, contract_cost := tc }
    else t
  if pid ≠ "" then
    let pb := match parse_float r.budget_raw with
      | some b => tblInsert t1.project_budget pid b
      | none => t1.project_budget
    let pc := match parse_float r.cost_raw with
      | some c => tblInsert t1.project_cost pid c
      | none => t1.project_cost
    { t1 with project_budget := pb, project_cost := pc }
  else t1

/-- Pass 1 over the whole file (src/controller.rs lines 37-65). -/
def pass1 (rows : List RawRow) : Tables :=
  rows.foldl pass1Row Tables.empty

/-- Budget resolution in pass 2 (src/controller.rs lines 84-98): plain
numeric parse first; on failure, a cluster reference looks the captured id
up in the contract-budget table, else a MYCA reference looks it up in the
project-budget table; otherwise absent. -/
def resolveBudget (t : Tables) (raw : RawNum) : Option ℚ :=
  match parse_float raw with
  | some q => some q
  | none =>
    match clusterCapture raw with
    | some id => t.contract_budget id
    | none =>
      match mycaCapture raw with
      | some id => t.project_budget id
      | none => none

/-- Cost resolution in pass 2 (src/controller.rs lines 100-113), same shape
as the budget resolution but against the cost tables. -/
def resolveCost (t : Tables) (raw : RawNum) : Option ℚ :=
  match parse_float raw with
  | some q => some q
  | none =>
    match clusterCapture raw with
    | some id => t.contract_cost id
    | none =>
      match mycaCapture raw with
      | some id => t.project_cost id
      | none => none

/-- Pass 2 on one record (src/controller.rs lines 68-132): build the
`Project`, resolve budget and cost, then compute the derived fields.
Note the source wraps every categorical `get` result in `Some`, so an
absent cell becomes `Some("")`, never `None`. -/
def buildProject (t : Tables) (r : RawRow) : Project :=
  let budget := resolveBudget t r.budget_raw
  let cost := resolveCost t r.cost_raw
  { project_id := some (rawGet r.project_id_raw)
    funding_year := r.funding_year_raw
    region := some (rawGet r.region_raw)
    main_island := some (rawGet r.main_island_raw)
    province := some (rawGet r.province_raw)
    contractor := some (rawGet r.contractor_raw)
    type_of_work := some (rawGet r.type_of_work_raw)
    contract_id := some (rawGet r.contract_id_raw)
    approved_budget_for_contract := budget
    contract_cost := cost
    lat := r.lat_raw
    lon := r.lon_raw
    start_date := r.start_date_raw
    actual_completion_date := r.completion_date_raw
    cost_savings :=
      match budget, cost with
      | some a, some c => some (a - c)
      | _, _ => none
    completion_delay_days :=
      match r.start_date_raw, r.completion_date_raw with
      | some s, some e => some (e.dayNumber - s.dayNumber)
      | _, _ => none }

/-- The year filter of src/controller.rs lines 137-144: keep a project iff
its start date is present and its year lies in `2021..=2023`. -/
def yearKeep (p : Project) : Bool :=
  match p.start_date with
  | some d => decide (2021 ≤ d.year) && decide (d.year ≤ 2023)
  | none => false

/-- `load_file` (src/controller.rs lines 12-148) as a pure function from
the raw records to the filtered project list: pass 1, pass 2, year filter. -/
def load_file (rows : List RawRow) : List Project :=
  ((rows.map (buildProject (pass1 rows)))).filter yearKeep

/-! ## Aggregation helpers shared by the reports -/

/-- The present completion delays of a group, as rationals
(`filter_map(|p| p.completion_delay_days)` with the `as f64` cast). -/
def delaysOf (g : List Project) : List ℚ :=
  g.filterMap (fun p => p.completion_delay_days.map (fun d => (d : ℚ)))

/-- The present cost savings of a group. -/
def savingsOf (g : List Project) : List ℚ :=
  g.filterMap (fun p => p.cost_savings)

/-- The present contract costs of a group. -/
def costsOf (g : List Project) : List ℚ :=
  g.filterMap (fun p => p.contract_cost)

/-- Grouping by a string key, in first-occurrence order. The Rust sources
group with a `HashMap<String, Vec<&Project>>`; its iteration order is
arbitrary, so any deterministic order is a faithful model for
order-insensitive properties of the grouped output. Each key is paired
with exactly the projects carrying it, in input order. -/
def groupByKey (key : Project → String) (ps : List Project) : List (String × List Project) :=
  ((ps.map key).dedup).map (fun k => (k, ps.filter (fun p => key p = k)))

/-! ## The IEEE-style value domain for the report2 reliability formula -/

/-- A dyadic model of the `f64` values the reliability computation of
report2 can produce: a finite value (kept exact as a rational), NaN, or a
signed infinity. -/
inductive F where
  | fin (q : ℚ)
  | nan
  | pinf
  | ninf
deriving DecidableEq, Repr

/-- IEEE subtraction on `F`. -/
def F.sub : F → F → F
  | F.nan, _ => F.nan
  | _, F.nan => F.nan
  | F.fin a, F.fin b => F.fin (a - b)
  | F.fin _, F.pinf => F.ninf
  | F.fin _, F.ninf => F.pinf
  | F.pinf, F.fin _ => F.pinf
  | F.ninf, F.fin _ => F.ninf
  | F.pinf, F.pinf => F.nan
  | F.ninf, F.ninf => F.nan
  | F.pinf, F.ninf => F.pinf
  | F.ninf, F.pinf => F.ninf

/-- IEEE multiplication on `F`. -/
def F.mul : F → F → F
  | F.nan, _ => F.nan
  | _, F.nan => F.nan
  | F.fin a, F.fin b => F.fin (a * b)
  | F.fin a, F.pinf => if 0 < a then F.pinf else if a < 0 then F.ninf else F.nan
  | F.fin a, F.ninf => if 0 < a then F.ninf else if a < 0 then F.pinf else F.nan
  | F.pinf, F.fin b => if 0 < b then F.pinf else if b < 0 then F.ninf else F.nan
  | F.ninf, F.fin b => if 0 < b then F.ninf else if b < 0 then F.pinf else F.nan
  | F.pinf, F.pinf => F.pinf
  | F.pinf, F.ninf => F.ninf
  | F.ninf, F.pinf => F.ninf
  | F.ninf, F.ninf => F.pinf

/-- IEEE division on `F`. Division of a nonzero finite value by zero gives
a signed infinity; `0 / 0` gives NaN. -/
def F.div : F → F → F
  | F.nan, _ => F.nan
  | _, F.nan => F.nan
  | F.fin a, F.fin b =>
    if b = 0 then (if a = 0 then F.nan else if 0 < a then F.pinf else F.ninf)
    else F.fin (a / b)
  | F.fin _, F.pinf => F.fin 0
  | F.fin _, F.ninf => F.fin 0
  | F.pinf, F.fin b => if 0 ≤ b then F.pinf else F.ninf
  | F.ninf, F.fin b => if 0 ≤ b then F.ninf else F.pinf
  | F.pinf, _ => F.nan
  | F.ninf, _ => F.nan

/-- IEEE strict less-than on `F`: every comparison with NaN is false. -/
def F.lt : F → F → Bool
  | F.nan, _ => false
  | _, F.nan => false
  | F.fin a, F.fin b => decide (a < b)
  | F.fin _, F.pinf => true
  | F.fin _, F.ninf => false
  | F.pinf, _ => false
  | F.ninf, F.ninf => false
  | F.ninf, _ => true

/-- IEEE strict greater-than on `F`. -/
def F.gt (a b : F) : Bool := F.lt b a

/-- `round2` lifted to `F`: NaN and the infinities round to themselves. -/
def F.roundCents : F → F
  | F.fin q => F.fin (round2 q)
  | x => x

/-- The reliability computation of src/view/report2.rs lines 57-63 on the
three (always finite) group aggregates:
`(1 - avg_delay/90) * (total_savings/total_cost) * 100`, then clamp above
at 100 and below at 0. There is no guard on `total_cost = 0`. -/
def reliabilityF (avg_delay total_savings total_cost : ℚ) : F :=
  let r :=
    F.mul
      (F.mul (F.sub (F.fin 1) (F.div (F.fin avg_delay) (F.fin 90)))
        (F.div (F.fin total_savings) (F.fin total_cost)))
      (F.fin 100)
  let r1 := if F.gt r (F.fin 100) then F.fin 100 else r
  if F.lt r1 (F.fin 0) then F.fin 0 else r1

/-! ## Report 2: top contractors (src/view/report2.rs) -/

/-- One row of the contractor report (src/view/report2.rs lines 15-25). -/
structure Row2 where
  contractor : String
  num_projects : ℕ
  reliability_index : F
  risk_flag : String
  total_cost : ℚ
  avg_delay : ℚ
  total_savings : ℚ
deriving DecidableEq, Repr

/-- The grouping key of report2 (src/view/report2.rs line 36). -/
def contractorKey (p : Project) : String := p.contractor.getD "Unknown"

/-- One contractor row (src/view/report2.rs lines 46-81). Note the average
delay divides the sum of the present delays by the size of the whole
group, and the risk flag is computed from the clamped (pre-rounding)
reliability. -/
def report2Row (contractor : String) (g : List Project) : Row2 :=
  let avg_delay := (delaysOf g).sum / (g.length : ℚ)
  let total_savings := (savingsOf g).sum
  let total_cost := (costsOf g).sum
  let reliability := reliabilityF avg_delay total_savings total_cost
  { contractor := contractor
    num_projects := g.length
    reliability_index := F.roundCents reliability
    risk_flag := if F.lt reliability (F.fin 50) then "High Risk" else "OK"
    total_cost := round2 total_cost
    avg_delay := round2 avg_delay
    total_savings := round2 total_savings }

/-- The whole report2 pipeline (src/view/report2.rs lines 27-87): group by
contractor, drop groups of fewer than 5 projects, build the rows, sort
descending by total cost, keep the top 15. -/
def report2 (ps : List Project) : List Row2 :=
  let groups := groupByKey contractorKey ps
  let rows := (groups.filter (fun kg => 5 ≤ kg.2.length)).map
    (fun kg => report2Row kg.1 kg.2)
  (rows.insertionSort (fun a b => b.total_cost ≤ a.total_cost)).take 15

/-! ## Report 1: regional efficiency (src/view/report1.rs) -/

/-- The average delay of report1 (src/view/report1.rs lines 77-87):
mean of the present delays, 0 when none is present. -/
def report1AvgDelay (g : List Project) : ℚ :=
  let ds := delaysOf g
  if ds.isEmpty then 0 else ds.sum / (ds.length : ℚ)

/-- The grouping key of report1 (src/view/report1.rs lines 48-55):
region and main island joined by a bar. -/
def regionIslandKey (p : Project) : String :=
  (p.region.getD "Unknown") ++ "|" ++ (p.main_island.getD "Unknown")

/-- Minimum of the valid scores, as the fold of src/view/report1.rs
lines 129-132 computes it on a nonempty list. -/
def foldMin (h : ℚ) (t : List ℚ) : ℚ := t.foldl min h

/-- Maximum of the valid scores, as the fold of src/view/report1.rs
lines 133-136 computes it on a nonempty list. -/
def foldMax (h : ℚ) (t : List ℚ) : ℚ := t.foldl max h

/-- The min/max pair over the scores greater than zero
(src/view/report1.rs lines 118-138); `(0, 1)` when no score is positive. -/
def minMaxValid (scores : List ℚ) : ℚ × ℚ :=
  match scores.filter (fun s => 0 < s) with
  | [] => (0, 1)
  | h :: t => (foldMin h t, foldMax h t)

/-- Normalization of one score given the min/max of the valid scores
(src/view/report1.rs lines 141-150): positive scores rescale to 0-100 when
the range exceeds the f64 epsilon, everything else is forced to 0, and the
result is rounded to cents. -/
def normOne (mn mx : ℚ) (s : ℚ) : ℚ :=
  round2 (if 0 < s ∧ f64Epsilon < mx - mn then (s - mn) / (mx - mn) * 100 else 0)

/-- The normalization pass of report1 over the raw efficiency scores
(src/view/report1.rs lines 117-150). -/
def normalizeScores (scores : List ℚ) : List ℚ :=
  let mm := minMaxValid scores
  scores.map (normOne mm.1 mm.2)

/-! ## median (src/model.rs lines 112-132) -/

/-- `median` including its observable effect on the argument slice
(src/model.rs lines 112-132): the first component is the content of the
slice after the call (sorted in place unless the input is empty, in which
case the function returns before sorting), the second is the returned
median. -/
def median_state (l : List ℚ) : List ℚ × ℚ :=
  if l.isEmpty then (l, 0)
  else
    let s := l.insertionSort (· ≤ ·)
    let n := l.length
    if n % 2 = 1 then (s, s.getD (n / 2) 0)
    else (s, (s.getD (n / 2 - 1) 0 + s.getD (n / 2) 0) / 2)

/-- The value returned by `median`. -/
def median (l : List ℚ) : ℚ := (median_state l).2

/-! ## Helper lemmas -/

theorem foldMin_mem (t : List ℚ) (h : ℚ) : foldMin h t = h ∨ foldMin h t ∈ t := by
  induction t generalizing h with
  | nil => left; rfl
  | cons x xs ih =>
    rcases ih (min h x) with hc | hc
    · rcases min_cases h x with ⟨he, _⟩ | ⟨he, _⟩
      · left; rw [foldMin, List.foldl_cons, ← foldMin, hc, he]
      · right; rw [foldMin, List.foldl_cons, ← foldMin, hc, he]; exact List.mem_cons_self x xs
    · right; exact List.mem_cons_of_mem x hc

theorem foldMin_le (t : List ℚ) (h : ℚ) : foldMin h t ≤ h ∧ ∀ x ∈ t, foldMin h t ≤ x := by
  induction t generalizing h with
  | nil => exact ⟨le_refl h, by simp⟩
  | cons x xs ih =>
    have hx := ih (min h x)
    refine ⟨le_trans hx.1 (min_le_left h x), ?_⟩
    intro y hy
    rcases List.mem_cons.mp hy with rfl | hy
    · exact le_trans hx.1 (min_le_right h y)
    · exact hx.2 y hy

theorem foldMax_mem (t : List ℚ) (h : ℚ) : foldMax h t = h ∨ foldMax h t ∈ t := by
  induction t generalizing h with
  | nil => left; rfl
  | cons x xs ih =>
    rcases ih (max h x) with hc | hc
    · rcases max_cases h x with ⟨he, _⟩ | ⟨he, _⟩
      · left; rw [foldMax, List.foldl_cons, ← foldMax, hc, he]
      · right; rw [foldMax, List.foldl_cons, ← foldMax, hc, he]; exact List.mem_cons_self x xs
    · right; exact List.mem_cons_of_mem x hc

theorem le_foldMax (t : List ℚ) (h : ℚ) : h ≤ foldMax h t ∧ ∀ x ∈ t, x ≤ foldMax h t := by
  induction t generalizing h with
  | nil => exact ⟨le_refl h, by simp⟩
  | cons x xs ih =>
    have hx := ih (max h x)
    refine ⟨le_trans (le_max_left h x) hx.1, ?_⟩
    intro y hy
    rcases List.mem_cons.mp hy with rfl | hy
    · exact le_trans (le_max_right h y) hx.1
    · exact hx.2 y hy

theorem pass1Row_cb (t : Tables) (r : RawRow) :
    (pass1Row t r).contract_budget =
      if rawGet r.contract_id_raw ≠ "" then
        (match parse_float r.budget_raw with
          | some b => tblInsert t.contract_budget (rawGet r.contract_id_raw) b
          | none => t.contract_budget)
      else t.contract_budget := by
  dsimp only [pass1Row]
  by_cases hc : rawGet r.contract_id_raw ≠ "" <;>
    by_cases hp : rawGet r.project_id_raw ≠ "" <;>
    simp [hc, hp]

theorem pass1Row_contract_budget (t : Tables) (r : RawRow) (X : String) (b : ℚ)
    (h : (pass1Row t r).contract_budget X = some b) :
    t.contract_budget X = some b ∨
      (rawGet r.contract_id_raw = X ∧ parse_float r.budget_raw = some b) := by
  rw [pass1Row_cb] at h
  by_cases hc : rawGet r.contract_id_raw ≠ ""
  · rw [if_pos hc] at h
    cases hb : parse_float r.budget_raw with
    | none => rw [hb] at h; left; exact h
    | some v =>
      rw [hb] at h
      dsimp only [tblInsert] at h
      by_cases hx : X = rawGet r.contract_id_raw
      · right
        rw [if_pos hx] at h
        exact ⟨hx.symm, h⟩
      · left; rw [if_neg hx] at h; exact h
  · rw [if_neg hc] at h; left; exact h

theorem pass1_fold_contract_budget (rows : List RawRow) (t : Tables) (X : String) (b : ℚ)
    (h : (rows.foldl pass1Row t).contract_budget X = some b) :
    t.contract_budget X = some b ∨
      ∃ r ∈ rows, rawGet r.contract_id_raw = X ∧ parse_float r.budget_raw = some b := by
  induction rows generalizing t with
  | nil => left; exact h
  | cons r rs ih =>
    rw [List.foldl_cons] at h
    rcases ih (pass1Row t r) h with hc | ⟨r2, hr2, hid, hpf⟩
    · rcases pass1Row_contract_budget t r X b hc with hc2 | hc2
      · left; exact hc2
      · right; exact ⟨r, List.mem_cons_self r rs, hc2⟩
    · right; exact ⟨r2, List.mem_cons_of_mem r hr2, hid, hpf⟩

theorem pass1_contract_budget_src (rows : List RawRow) (X : String) (b : ℚ)
    (h : (pass1 rows).contract_budget X = some b) :
    ∃ r ∈ rows, rawGet r.contract_id_raw = X ∧ parse_float r.budget_raw = some b := by
  rcases pass1_fold_contract_budget rows Tables.empty X b h with hc | hc
  · exact absurd hc (by simp [Tables.empty])
  · exact hc

theorem report2_row_src (ps : List Project) (r : Row2) (hr : r ∈ report2 ps) :
    ∃ k, r = report2Row k (ps.filter (fun p => contractorKey p = k)) ∧
      5 ≤ (ps.filter (fun p => contractorKey p = k)).length := by
  unfold report2 at hr
  have h1 := (List.take_sublist 15 _).subset hr
  have h2 := (List.perm_insertionSort
    (fun a b : Row2 => b.total_cost ≤ a.total_cost) _).subset h1
  rcases List.mem_map.mp h2 with ⟨kg, hkg, rfl⟩
  rcases List.mem_filter.mp hkg with ⟨hg, hlen⟩
  rcases List.mem_map.mp hg with ⟨k, _, rfl⟩
  exact ⟨k, rfl, by simpa using hlen⟩

theorem round2_zero : round2 0 = 0 := by norm_num [round2, rustRound]

theorem median_char (l s : List ℚ) (hp : l.Perm s) (hs : s.Sorted (· ≤ ·)) :
    median l =
      if l.length % 2 = 1 then s.getD (l.length / 2) 0
      else (s.getD (l.length / 2 - 1) 0 + s.getD (l.length / 2) 0) / 2 := by
  by_cases hl : l = []
  · subst hl
    have hs0 : s = [] := hp.symm.eq_nil
    subst hs0
    simp [median, median_state]
  · have hne : l.isEmpty = false := by simpa using hl
    have hsort : l.insertionSort (· ≤ ·) = s :=
      List.eq_of_perm_of_sorted ((List.perm_insertionSort _ l).trans hp)
        (List.sorted_insertionSort _ l) hs
    unfold median median_state
    simp only [hne, Bool.false_eq_true, if_false, hsort]
    split <;> rfl

/-! ## The claims -/

/-- Claim C1 (code bug). The spec demands that a contractor group whose
total cost is 0 gets reliability 0, never NaN or infinity. The code of
src/view/report2.rs lines 57-63 has no guard: for a group of 5 projects
with no present contract cost and no present savings, the aggregate
`total_cost` is 0, the formula computes `(1 - 0/90) * (0/0) * 100 = NaN`,
both clamps (`> 100`, `< 0`) are false on NaN, and the emitted
`reliability_index` is NaN. -/
theorem c1_zero_total_cost_emits_nan :
    (report2 [({ contractor := some "A" } : Project), { contractor := some "A" },
        { contractor := some "A" }, { contractor := some "A" },
        { contractor := some "A" }]).map (fun r => r.reliability_index) = [F.nan] ∧
    (costsOf [({ contractor := some "A" } : Project), { contractor := some "A" },
        { contractor := some "A" }, { contractor := some "A" },
        { contractor := some "A" }]).sum = 0 := by
  constructor <;>
    norm_num [report2, groupByKey, contractorKey, report2Row, delaysOf, savingsOf, costsOf,
      reliabilityF, F.div, F.sub, F.mul, F.lt, F.gt, F.roundCents, round2, rustRound,
      List.insertionSort, List.orderedInsert, List.dedup, List.filter, List.filterMap]

/-- Claim C2, counterexample. In the contractor report the claim fails: a
contractor group of 5 projects in which exactly one delay (10 days) is
present gets `avg_delay = 10 / 5 = 2` (src/view/report2.rs lines 46-52
divide by the group size), while the arithmetic mean of the present delays
is 10. -/
theorem c2_contractor_avg_delay_counterexample :
    (report2 [{ contractor := some "B", completion_delay_days := some 10 },
        { contractor := some "B" }, { contractor := some "B" },
        { contractor := some "B" }, { contractor := some "B" }]).map
        (fun r => r.avg_delay) = [2] ∧
    delaysOf [({ contractor := some "B", completion_delay_days := some 10 } : Project),
        { contractor := some "B" }, { contractor := some "B" },
        { contractor := some "B" }, { contractor := some "B" }] = [10] ∧
    (2 : ℚ) ≠ 10 := by
  refine ⟨?_, ?_, by norm_num⟩ <;>
    norm_num [report2, groupByKey, contractorKey, report2Row, delaysOf, savingsOf, costsOf,
      reliabilityF, F.div, F.sub, F.mul, F.lt, F.gt, F.roundCents, round2, rustRound,
      List.insertionSort, List.orderedInsert, List.dedup, List.filter, List.filterMap]

/-- Claim C2, amended. In the regional report (src/view/report1.rs lines
77-87) `avg_delay` is the arithmetic mean of the present delays and 0
when none is present; in the contractor report (src/view/report2.rs lines
46-52) `avg_delay` is the sum of the present delays divided by the size of
the whole group, rounded to cents. -/
theorem c2_avg_delay_amended (g : List Project) (k : String) :
    (delaysOf g = [] → report1AvgDelay g = 0) ∧
    (delaysOf g ≠ [] →
      report1AvgDelay g = (delaysOf g).sum / ((delaysOf g).length : ℚ)) ∧
    (report2Row k g).avg_delay = round2 ((delaysOf g).sum / (g.length : ℚ)) := by
  refine ⟨?_, ?_, rfl⟩ <;> intro h <;> simp [report1AvgDelay, h]

/-- Claim C2, witness for the amended theorem at a concrete group with one
present delay. -/
theorem c2_avg_delay_amended_witness :
    report1AvgDelay [({ completion_delay_days := some 10 } : Project)] =
      (delaysOf [({ completion_delay_days := some 10 } : Project)]).sum /
        ((delaysOf [({ completion_delay_days := some 10 } : Project)]).length : ℚ) :=
  (c2_avg_delay_amended [{ completion_delay_days := some 10 }] "k").2.1
    (by simp [delaysOf, List.filterMap])

/-- Claim C3, counterexample. The loader filters on the year of the start
date, not on the funding year (src/controller.rs lines 137-144): a row
with funding year 2020 but start date in 2022 is retained, and a row with
funding year 2022 but no start date is dropped — both contradict the
claim's funding-year instances. -/
theorem c3_funding_year_counterexample :
    (load_file [{ funding_year_raw := some 2020, start_date_raw := some ⟨2022, 19158⟩ }]).map
        (fun p => p.funding_year) = [some 2020] ∧
    load_file [{ funding_year_raw := some 2022 }] = [] := by
  constructor <;>
    norm_num [load_file, pass1, pass1Row, Tables.empty, buildProject, resolveBudget, resolveCost,
      rawGet, parse_float, clusterCapture, mycaCapture, yearKeep, List.filter]

/-- Claim C3, amended. The year filter retains a loaded project iff its
start date is present and the start-date year lies in the inclusive window
[2021, 2023]; projects without a start date are dropped. The funding year
plays no role in the filter. -/
theorem c3_year_filter_amended (rows : List RawRow) (p : Project) :
    load_file rows = (rows.map (buildProject (pass1 rows))).filter yearKeep ∧
    (yearKeep p = true ↔ ∃ d, p.start_date = some d ∧ 2021 ≤ d.year ∧ d.year ≤ 2023) := by
  refine ⟨rfl, ?_⟩
  cases hs : p.start_date with
  | none => simp [yearKeep, hs]
  | some d => simp [yearKeep, hs]

/-- Claim C3, witness: the amended filter characterization at a concrete
project starting in 2022. -/
theorem c3_year_filter_amended_witness :
    yearKeep ({ start_date := some ⟨2022, 19158⟩ } : Project) = true ↔
      ∃ d, ({ start_date := some ⟨2022, 19158⟩ } : Project).start_date = some d ∧
        2021 ≤ d.year ∧ d.year ≤ 2023 :=
  (c3_year_filter_amended [] { start_date := some ⟨2022, 19158⟩ }).2

/-- Claim C4 (confirmed). A row whose budget cell is the cluster pattern
with captured id X loads the budget stored for X in the pass-1
contract-budget table; anything stored there comes from a row whose
contract id cell is X and whose budget cell parsed as a plain number; and
when no such numeric row exists (in particular when the budget cell of
every row with contract id X is itself a reference, i.e. a chain longer
than one hop), the loaded budget is absent. -/
theorem c4_cluster_reference_resolution (rows : List RawRow) (r : RawRow) (X : String)
    (hb : r.budget_raw = RawNum.clusterRef X) :
    (buildProject (pass1 rows) r).approved_budget_for_contract =
      (pass1 rows).contract_budget X ∧
    (∀ b, (pass1 rows).contract_budget X = some b →
      ∃ r2 ∈ rows, rawGet r2.contract_id_raw = X ∧ parse_float r2.budget_raw = some b) ∧
    ((∀ r2 ∈ rows, rawGet r2.contract_id_raw = X → parse_float r2.budget_raw = none) →
      (buildProject (pass1 rows) r).approved_budget_for_contract = none) := by
  have h1 : (buildProject (pass1 rows) r).approved_budget_for_contract =
      (pass1 rows).contract_budget X := by
    simp [buildProject, resolveBudget, hb, parse_float, clusterCapture]
  refine ⟨h1, fun b h => pass1_contract_budget_src rows X b h, ?_⟩
  intro hall
  rw [h1]
  cases hx : (pass1 rows).contract_budget X with
  | none => rfl
  | some b =>
    rcases pass1_contract_budget_src rows X b hx with ⟨r2, hr2, hid, hpf⟩
    rw [hall r2 hr2 hid] at hpf
    exact absurd hpf (by simp)

/-- Claim C4, witness: a file of two rows in which the second references
the first by contract id X; its loaded budget is the stored one (500). -/
theorem c4_cluster_reference_resolution_witness :
    (buildProject
        (pass1 [{ contract_id_raw := some "X", budget_raw := RawNum.num 500 },
          { budget_raw := RawNum.clusterRef "X" }])
        { budget_raw := RawNum.clusterRef "X" }).approved_budget_for_contract =
      (pass1 [{ contract_id_raw := some "X", budget_raw := RawNum.num 500 },
        { budget_raw := RawNum.clusterRef "X" }]).contract_budget "X" ∧
    (pass1 [{ contract_id_raw := some "X", budget_raw := RawNum.num 500 },
      ({ budget_raw := RawNum.clusterRef "X" } : RawRow)]).contract_budget "X" = some 500 :=
  ⟨(c4_cluster_reference_resolution
      [{ contract_id_raw := some "X", budget_raw := RawNum.num 500 },
        { budget_raw := RawNum.clusterRef "X" }]
      { budget_raw := RawNum.clusterRef "X" } "X" rfl).1,
    by simp [pass1, pass1Row, Tables.empty, tblInsert, rawGet, parse_float]⟩

/-- Claim C5 (confirmed). For every project produced by the loader,
`cost_savings` is present iff both the resolved budget and the resolved
cost are present, and then equals budget minus cost;
`completion_delay_days` is present iff both dates are present, and then
equals their difference in whole days. A missing operand is never
replaced by zero. -/
theorem c5_derived_fields_present_iff_operands (rows : List RawRow) (p : Project)
    (hp : p ∈ load_file rows) :
    (p.cost_savings.isSome ↔ p.approved_budget_for_contract.isSome ∧ p.contract_cost.isSome) ∧
    (∀ a c, p.approved_budget_for_contract = some a → p.contract_cost = some c →
      p.cost_savings = some (a - c)) ∧
    (p.completion_delay_days.isSome ↔ p.start_date.isSome ∧ p.actual_completion_date.isSome) ∧
    (∀ s e, p.start_date = some s → p.actual_completion_date = some e →
      p.completion_delay_days = some (e.dayNumber - s.dayNumber)) := by
  have hp2 : p ∈ (rows.map (buildProject (pass1 rows))).filter yearKeep := hp
  rcases List.mem_map.mp (List.mem_of_mem_filter hp2) with ⟨r, _, rfl⟩
  cases hb : resolveBudget (pass1 rows) r.budget_raw <;>
    cases hc : resolveCost (pass1 rows) r.cost_raw <;>
    cases hs : r.start_date_raw <;> cases he : r.completion_date_raw <;>
    simp [buildProject, hb, hc, hs, he]

/-- Concrete raw row used by the C5 witness: budget 100, cost 40, a
50-day date span. -/
def c5Row : RawRow :=
  { budget_raw := RawNum.num 100
    cost_raw := RawNum.num 40
    start_date_raw := some ⟨2022, 19000⟩
    completion_date_raw := some ⟨2022, 19050⟩ }

/-- Claim C5, witness: a loaded row with budget 100, cost 40 and a 50-day
date span has savings 100 - 40 and delay 50. -/
theorem c5_derived_fields_witness :
    (buildProject (pass1 [c5Row]) c5Row).cost_savings = some (100 - 40) ∧
    (buildProject (pass1 [c5Row]) c5Row).completion_delay_days = some (19050 - 19000) := by
  have h := c5_derived_fields_present_iff_operands [c5Row]
    (buildProject (pass1 [c5Row]) c5Row)
    (by simp [load_file, yearKeep, buildProject, resolveBudget, resolveCost,
      parse_float, clusterCapture, mycaCapture, List.filter, c5Row])
  exact ⟨h.2.1 100 40
      (by simp [buildProject, resolveBudget, parse_float, c5Row])
      (by simp [buildProject, resolveCost, parse_float, c5Row]),
    h.2.2.2 ⟨2022, 19000⟩ ⟨2022, 19050⟩
      (by simp [buildProject, c5Row]) (by simp [buildProject, c5Row])⟩

/-- Claim C6 (confirmed). The normalization of report1 computes min and
max only over the raw scores greater than 0 (both bounds are attained in
that set when it is nonempty), rescales every positive score by
`(raw - min) / (max - min) * 100` (rounded to cents) whenever the range
exceeds the f64 epsilon, forces every score less than or equal to 0 to 0,
and when all eligible scores are equal maps every score of the list to 0
(no division by zero); raw scores [10, 20, 30] normalize to [0, 50, 100]. -/
theorem c6_normalization_minmax (scores : List ℚ) :
    normalizeScores [10, 20, 30] = [0, 50, 100] ∧
    normalizeScores scores = scores.map (normOne (minMaxValid scores).1 (minMaxValid scores).2) ∧
    (∀ s, s ≤ 0 → normOne (minMaxValid scores).1 (minMaxValid scores).2 s = 0) ∧
    (f64Epsilon < (minMaxValid scores).2 - (minMaxValid scores).1 →
      ∀ s, 0 < s →
        normOne (minMaxValid scores).1 (minMaxValid scores).2 s =
          round2 ((s - (minMaxValid scores).1) /
            ((minMaxValid scores).2 - (minMaxValid scores).1) * 100)) ∧
    (∀ x ∈ scores.filter (fun s => 0 < s),
      (minMaxValid scores).1 ≤ x ∧ x ≤ (minMaxValid scores).2) ∧
    (scores.filter (fun s => 0 < s) ≠ [] →
      (minMaxValid scores).1 ∈ scores.filter (fun s => 0 < s) ∧
      (minMaxValid scores).2 ∈ scores.filter (fun s => 0 < s)) ∧
    ((∀ x ∈ scores.filter (fun s => 0 < s), ∀ y ∈ scores.filter (fun s => 0 < s), x = y) →
      ∀ s ∈ scores, normOne (minMaxValid scores).1 (minMaxValid scores).2 s = 0) := by
  have hex : normalizeScores [10, 20, 30] = [0, 50, 100] := by
    norm_num [normalizeScores, minMaxValid, foldMin, foldMax, normOne, f64Epsilon,
      round2, rustRound, List.filter]
  have hzero : ∀ mn mx : ℚ, ∀ s, s ≤ 0 → normOne mn mx s = 0 := by
    intro mn mx s hs
    rw [normOne, if_neg (by rw [not_and_or]; left; exact not_lt.mpr hs), round2_zero]
  have hbounds : ∀ x ∈ scores.filter (fun s => 0 < s),
      (minMaxValid scores).1 ≤ x ∧ x ≤ (minMaxValid scores).2 := by
    intro x hx
    rw [minMaxValid]
    cases hf : scores.filter (fun s => 0 < s) with
    | nil => rw [hf] at hx; exact absurd hx (List.not_mem_nil x)
    | cons h t =>
      rw [hf] at hx
      rcases List.mem_cons.mp hx with rfl | hx
      · exact ⟨(foldMin_le t x).1, (le_foldMax t x).1⟩
      · exact ⟨(foldMin_le t h).2 x hx, (le_foldMax t h).2 x hx⟩
  have hattain : scores.filter (fun s => 0 < s) ≠ [] →
      (minMaxValid scores).1 ∈ scores.filter (fun s => 0 < s) ∧
      (minMaxValid scores).2 ∈ scores.filter (fun s => 0 < s) := by
    intro hne
    rw [minMaxValid]
    cases hf : scores.filter (fun s => 0 < s) with
    | nil => exact absurd hf hne
    | cons h t =>
      dsimp only
      constructor
      · rcases foldMin_mem t h with he | he
        · rw [he]; exact List.mem_cons_self h t
        · exact List.mem_cons_of_mem h he
      · rcases foldMax_mem t h with he | he
        · rw [he]; exact List.mem_cons_self h t
        · exact List.mem_cons_of_mem h he
  refine ⟨hex, rfl, fun s => hzero _ _ s, ?_, hbounds, hattain, ?_⟩
  · intro hgap s hs
    rw [normOne, if_pos ⟨hs, hgap⟩]
  · intro heq s hs
    by_cases hpos : 0 < s
    · have hsf : s ∈ scores.filter (fun z => 0 < z) :=
        List.mem_filter.mpr ⟨hs, by simpa using hpos⟩
      have hf : scores.filter (fun z => 0 < z) ≠ [] := by
        intro h0
        rw [h0] at hsf
        exact (List.not_mem_nil s) hsf
      have hmm := hattain hf
      have heqv := heq _ hmm.1 _ hmm.2
      have hgap : ¬ f64Epsilon < (minMaxValid scores).2 - (minMaxValid scores).1 := by
        rw [← heqv, sub_self]
        norm_num [f64Epsilon]
      rw [normOne, if_neg (by rw [not_and_or]; right; exact hgap), round2_zero]
    · exact hzero _ _ s (not_lt.mp hpos)

/-- Claim C6, witness: on the all-equal list [7, 7] every score normalizes
to 0 (the degenerate branch, no division by zero). -/
theorem c6_normalization_minmax_witness :
    normOne (minMaxValid [7, 7]).1 (minMaxValid [7, 7]).2 7 = 0 :=
  (c6_normalization_minmax [7, 7]).2.2.2.2.2.2
    (by simp [List.filter]) 7 (by simp)

/-- Claim C7 (confirmed). Every row of the contractor report stands for a
contractor with at least 5 projects in the input dataset (the row's
project count is exactly the number of projects grouped under its
contractor key), the report has at most 15 rows, and the rows are sorted
in descending order of total cost. -/
theorem c7_contractor_report_shape (ps : List Project) :
    (∀ r ∈ report2 ps, 5 ≤ r.num_projects ∧
      r.num_projects = (ps.filter (fun p => contractorKey p = r.contractor)).length) ∧
    (report2 ps).length ≤ 15 ∧
    (report2 ps).Sorted (fun a b => b.total_cost ≤ a.total_cost) := by
  refine ⟨?_, ?_, ?_⟩
  · intro r hr
    rcases report2_row_src ps r hr with ⟨k, rfl, hlen⟩
    exact ⟨hlen, rfl⟩
  · unfold report2
    rw [List.length_take]
    exact min_le_left _ _
  · unfold report2
    apply List.Pairwise.sublist (List.take_sublist _ _)
    haveI ht : IsTotal Row2 (fun a b => b.total_cost ≤ a.total_cost) :=
      ⟨fun a b => le_total b.total_cost a.total_cost⟩
    haveI htr : IsTrans Row2 (fun a b => b.total_cost ≤ a.total_cost) :=
      ⟨fun _ _ _ hab hbc => le_trans hbc hab⟩
    exact List.sorted_insertionSort _ _

/-- The five-project single-contractor dataset used by the C7 witness. -/
def c7Projects : List Project :=
  [{ contractor := some "A" }, { contractor := some "A" }, { contractor := some "A" },
    { contractor := some "A" }, { contractor := some "A" }]

/-- The single row report2 emits on `c7Projects`. -/
def c7RowA : Row2 :=
  { contractor := "A"
    num_projects := 5
    reliability_index := F.nan
    risk_flag := "OK"
    total_cost := 0
    avg_delay := 0
    total_savings := 0 }

/-- Claim C7, witness: for five projects of one contractor the single
report row counts 5 projects, and the report length is within 15. -/
theorem c7_contractor_report_shape_witness :
    5 ≤ c7RowA.num_projects ∧ (report2 c7Projects).length ≤ 15 :=
  ⟨((c7_contractor_report_shape c7Projects).1 c7RowA
      (by norm_num [report2, groupByKey, contractorKey, report2Row, delaysOf, savingsOf,
        costsOf, reliabilityF, F.div, F.sub, F.mul, F.lt, F.gt, F.roundCents, round2,
        rustRound, List.insertionSort, List.orderedInsert, List.dedup, List.filter,
        List.filterMap, c7Projects, c7RowA])).1,
    (c7_contractor_report_shape c7Projects).2.1⟩

/-- Claim C8 (confirmed). `median` is invariant under permutation of its
input, is characterized on any input as the middle element (odd length) or
the mean of the two middle elements (even length) of the ascending sorted
arrangement, and satisfies the three concrete cases of the spec. -/
theorem c8_median_properties (l l2 s : List ℚ) :
    (l.Perm l2 → median l = median l2) ∧
    (l.Perm s → s.Sorted (· ≤ ·) →
      median l =
        if l.length % 2 = 1 then s.getD (l.length / 2) 0
        else (s.getD (l.length / 2 - 1) 0 + s.getD (l.length / 2) 0) / 2) ∧
    median [1, 2, 3] = 2 ∧ median [1, 2, 3, 4] = 5 / 2 ∧ median ([] : List ℚ) = 0 := by
  refine ⟨?_, fun hp hs => median_char l s hp hs, ?_, ?_, ?_⟩
  · intro h12
    have hs2 := List.sorted_insertionSort (α := ℚ) (· ≤ ·) l2
    have hperm2 := List.perm_insertionSort (α := ℚ) (· ≤ ·) l2
    have e1 := median_char l (l2.insertionSort (· ≤ ·)) (h12.trans hperm2.symm) hs2
    have e2 := median_char l2 (l2.insertionSort (· ≤ ·)) hperm2.symm hs2
    rw [e1, e2, h12.length_eq]
  · norm_num [median, median_state, List.insertionSort, List.orderedInsert]
  · norm_num [median, median_state, List.insertionSort, List.orderedInsert]
  · norm_num [median, median_state]

/-- Claim C8, witness: permutation invariance applied to two concrete
orderings of the same three values. -/
theorem c8_median_properties_witness :
    median [3, 1, 2] = median [2, 3, 1] :=
  (c8_median_properties [3, 1, 2] [2, 3, 1] []).1 (by decide)

/-- Claim C9 (code bug). The spec says a project whose categorical
attribute is absent in the source row is grouped under the sentinel
"Unknown". The loader (src/controller.rs lines 75-82) wraps every
categorical cell in `Some`, so an absent region cell loads as `Some("")`;
the `unwrap_or("Unknown")` at aggregation time (src/view/report1.rs lines
48-55, src/view/report2.rs lines 33-38) therefore never fires, and the
project is grouped under the empty-string key instead of "Unknown". -/
theorem c9_absent_region_empty_key :
    (load_file [({ start_date_raw := some ⟨2022, 19158⟩ } : RawRow)]).map
        (fun p => p.region) = [some ""] ∧
    (load_file [({ start_date_raw := some ⟨2022, 19158⟩ } : RawRow)]).map
        regionIslandKey = ["|"] ∧
    (load_file [({ start_date_raw := some ⟨2022, 19158⟩ } : RawRow)]).map
        contractorKey = [""] := by
  refine ⟨?_, ?_, ?_⟩ <;>
    norm_num [load_file, pass1, pass1Row, Tables.empty, buildProject, resolveBudget,
      resolveCost, rawGet, parse_float, clusterCapture, mycaCapture, yearKeep,
      regionIslandKey, contractorKey, List.filter]

/-- Claim C10 (confirmed). `median` sorts its argument slice in place: for
every nonempty input, after the call the slice holds the same multiset of
elements in ascending order, and the returned value is the median of that
content. The embedding `median_state` returns the post-call slice content
together with the returned value; the slice is the only state the
function touches. -/
theorem c10_median_sorts_in_place (l : List ℚ) (h : l ≠ []) :
    (median_state l).1.Perm l ∧ (median_state l).1.Sorted (· ≤ ·) ∧
      (median_state l).2 = median l := by
  have hne : l.isEmpty = false := by simpa using h
  have h1 : (median_state l).1 = l.insertionSort (· ≤ ·) := by
    unfold median_state
    simp only [hne, Bool.false_eq_true, if_false]
    split <;> rfl
  refine ⟨?_, ?_, rfl⟩
  · rw [h1]; exact List.perm_insertionSort _ l
  · rw [h1]; exact List.sorted_insertionSort _ l

/-- Claim C10, witness: the slice [3, 1, 2] is sorted in place. -/
theorem c10_median_sorts_in_place_witness :
    (median_state [3, 1, 2]).1.Perm [3, 1, 2] ∧
      (median_state [3, 1, 2]).1.Sorted (· ≤ ·) ∧
      (median_state [3, 1, 2]).2 = median [3, 1, 2] :=
  c10_median_sorts_in_place [3, 1, 2] (by simp)
